import Mathlib

/-!
Verification of the plugin-pipeline / download-queue / archive-installer
repository (`williamokano/hashicorp-plugin-example`) against its
natural-language specification.

The Go sources are shallowly embedded:

* pure functions become Lean functions;
* stateful code (the pipeline run, the bulkhead semaphore) becomes explicit
  state passing or a step function over a state type, with an event trace
  recording the externally visible calls (decide / process / kill, progress
  and error callbacks, semaphore acquire / release);
* fallible Go calls returning `error` become `Option` / `Except`;
* remote calls (gRPC plugin calls, HTTP fetches, `downloadFn`) are
  parameters of the embedding: the plugin's `ShouldExecute`/`Process`
  behaviour is a function argument, a failed call being `none`.

Go's `sort.Slice` is embedded by its documented contract: the result is a
permutation of the input that is sorted with respect to the supplied `less`
function; the contract explicitly does not promise stability
(`sortSliceAdmissible` below).
-/

/-! ## Data model: `pkg/types` (Event, Context, Response, ExecutionDecision) -/

/-- Event type tags (`types.EventType`): the closed enumeration used by
`pkg/types/event.go` (message, command, webhook, scheduled). -/
inductive EventType where
  | message
  | command
  | webhook
  | scheduled
deriving DecidableEq, Repr

/-- Property values stored in the untyped `map[string]interface{}` maps.
The Go maps hold arbitrary values; a small closed variant suffices for the
claims, which never inspect a value's type. -/
inductive PropValue where
  | str (s : String)
  | int (n : Int)
  | bool (b : Bool)
deriving DecidableEq, Repr

/-- `types.Event`: the immutable description of the external trigger. -/
structure Event where
  type : EventType
  source : String
  content : String
  userID : String
  channelID : String
  metadata : List (String × PropValue)
deriving DecidableEq, Repr

/-- `types.Response`: one plugin's emitted output. -/
structure Response where
  pluginName : String
  content : String
  typ : String
  data : List (String × PropValue)
deriving DecidableEq, Repr

/-- `types.Context`: the unit of work threaded through one pipeline run.
The Go `Properties` map and `Responses` slice are modelled as association
and plain lists. -/
structure Context where
  event : Event
  properties : List (String × PropValue)
  responses : List Response
deriving DecidableEq, Repr

/-- The context `Pipeline.ProcessEvent` builds before running plugins:
the event, an empty properties map and an empty responses slice
(part_014 lines 113-118). -/
def initialContext (e : Event) : Context :=
  { event := e, properties := [], responses := [] }

/-! ## The pipeline: `pkg/pipeline` (part_014) -/

/-- One loaded plugin handle as the pipeline sees it
(`LoadedPlugin` + the `types.VersionedPlugin` calls the run makes).
`pid` is the handle's identity (its discovery index), `priority` the value
returned by `Priority()`; `shouldExecute` and `process` are the remote
calls, with `process` returning `none` when the gRPC call errors
(`GRPCClient.Process` returns `(nil, err)` in that case). -/
structure PluginSpec where
  pid : Nat
  priority : Int
  shouldExecute : Context → Bool × String
  process : Context → Option Context

/-- Trace events recording the externally visible calls a pipeline run
makes on its handles: the `ShouldExecute` call, the `Process` call,
and the teardown `Client.Kill()`. Decide/process events also record the
handle's priority, for stating ordering properties. -/
inductive PEvent where
  | decide (pid : Nat) (priority : Int)
  | process (pid : Nat) (priority : Int)
  | kill (pid : Nat)
deriving DecidableEq, Repr

/-- The plugin-execution loop of `Pipeline.ProcessEvent`
(part_014 lines 133-157): for each handle in order, call `ShouldExecute`;
if it declines, continue; otherwise call `Process`; on error keep the
previous context and continue; on success replace the working context.
Returns the final context and the trace of calls made. -/
def runPlugins : List PluginSpec → Context → Context × List PEvent
  | [], c => (c, [])
  | p :: ps, c =>
    if (p.shouldExecute c).1 then
      match p.process c with
      | none =>
        let r := runPlugins ps c
        (r.1, PEvent.decide p.pid p.priority :: PEvent.process p.pid p.priority :: r.2)
      | some nc =>
        let r := runPlugins ps nc
        (r.1, PEvent.decide p.pid p.priority :: PEvent.process p.pid p.priority :: r.2)
    else
      let r := runPlugins ps c
      (r.1, PEvent.decide p.pid p.priority :: r.2)

/-- `Pipeline.cleanupPlugins` (part_014 lines 213-217): kill every loaded
handle's client, in slice order. -/
def cleanupPlugins (ps : List PluginSpec) : List PEvent :=
  ps.map fun p => PEvent.kill p.pid

/-- The contract Go documents for `sort.Slice` with
`less i j = plugins[i].Plugin.Priority() < plugins[j].Plugin.Priority()`
(part_014 lines 128-130): the result is a permutation of the input that is
sorted with respect to `less`; stability is explicitly not guaranteed. -/
def sortSliceAdmissible (orig sorted : List PluginSpec) : Prop :=
  sorted.Perm orig ∧ sorted.Pairwise (fun a b => a.priority ≤ b.priority)

/-- The body of `Pipeline.ProcessEvent` after loading succeeded
(part_014 lines 125-159): run the handles in the sorted order `s`, then
(per the `defer`) kill every loaded handle; the loaded slice is sorted in
place, so cleanup iterates the same (sorted) slice. -/
def processEventRun (s : List PluginSpec) (e : Event) : Context × List PEvent :=
  let r := runPlugins s (initialContext e)
  (r.1, r.2 ++ cleanupPlugins s)

/-- Priority recorded in a decide/process trace event (0 for kill events,
which record none). -/
def evPriority : PEvent → Int
  | .decide _ q => q
  | .process _ q => q
  | .kill _ => 0

/-- The pids of the `ShouldExecute` calls in a trace, in call order. -/
def decidePids (tr : List PEvent) : List Nat :=
  tr.filterMap fun e =>
    match e with
    | .decide pid _ => some pid
    | _ => none

/-- The pids of the `Kill` calls in a trace, in call order. -/
def killPids (tr : List PEvent) : List Nat :=
  tr.filterMap fun e =>
    match e with
    | .kill pid => some pid
    | _ => none

/-! ## Go string and path helpers

`strings.HasPrefix/HasSuffix/Contains/TrimPrefix/TrimSuffix/Fields` and the
lexical `path/filepath` functions (`Clean`, `Join`, `IsAbs`) used by the
discovery scanner and the archive installer, modelled for the Unix path
separator `/` (the `runtime.GOOS == "windows"` branches that matter to the
claims are carried explicitly as an `isWin` flag where the source reads
them). -/

/-- List-level prefix test: `listHasPfx pat l` is true iff `pat` is a
prefix of `l` (the character-by-character loop behind
`strings.HasPrefix`). -/
def listHasPfx : List Char → List Char → Bool
  | [], _ => true
  | _ :: _, [] => false
  | p :: ps, c :: cs => p = c && listHasPfx ps cs

/-- `strings.HasPrefix(s, pre)`. -/
def strHasPfx (pre s : String) : Bool :=
  listHasPfx pre.toList s.toList

/-- `strings.HasSuffix(s, suf)`. -/
def strHasSfx (suf s : String) : Bool :=
  listHasPfx suf.toList.reverse s.toList.reverse

/-- Substring occurrence over character lists. -/
def listContains (pat : List Char) : List Char → Bool
  | [] => listHasPfx pat []
  | c :: cs => listHasPfx pat (c :: cs) || listContains pat cs

/-- `strings.Contains(s, sub)`. -/
def strContains (s sub : String) : Bool :=
  listContains sub.toList s.toList

/-- `strings.TrimSuffix(s, suf)`. -/
def trimSfx (s suf : String) : String :=
  if strHasSfx suf s then String.mk (s.toList.take (s.toList.length - suf.toList.length)) else s

/-- `strings.TrimPrefix(s, pre)`. -/
def trimPfx (s pre : String) : String :=
  if strHasPfx pre s then String.mk (s.toList.drop pre.toList.length) else s

/-- Split a character list at `/` separators (segments may be empty). -/
def splitSlashAux (cur : List Char) : List Char → List (List Char)
  | [] => [cur.reverse]
  | c :: cs => if c = '/' then cur.reverse :: splitSlashAux [] cs else splitSlashAux (c :: cur) cs

/-- All `/`-separated segments of a character list. -/
def splitSlash (cs : List Char) : List (List Char) :=
  splitSlashAux [] cs

/-- The segment-stack loop of `filepath.Clean` (Unix): drop `.` segments,
let `..` pop a preceding non-`..` segment, drop `..` at the root of a
rooted path, and keep leading `..` segments of a relative path. `stack`
holds the processed segments in reverse. -/
def cleanSegs (rooted : Bool) : List (List Char) → List (List Char) → List (List Char)
  | stack, [] => stack.reverse
  | stack, seg :: rest =>
    if seg = ['.'] then cleanSegs rooted stack rest
    else if seg = ['.', '.'] then
      match stack with
      | top :: stk =>
        if top = ['.', '.'] then cleanSegs rooted (seg :: top :: stk) rest
        else cleanSegs rooted stk rest
      | [] => if rooted then cleanSegs rooted [] rest else cleanSegs rooted [seg] rest
    else cleanSegs rooted (seg :: stack) rest

/-- Rebuild a path from segments, `/`-separated. -/
def joinSegs : List (List Char) → List Char
  | [] => []
  | [s] => s
  | s :: rest => s ++ '/' :: joinSegs rest

/-- `filepath.Clean` (Unix separator): shortest lexical equivalent of the
path; empty input becomes `"."`, a rooted path keeps its leading `/`, and
the result never has a trailing separator. -/
def goClean (s : String) : String :=
  let cs := s.toList
  if cs = [] then "."
  else
    let rooted := listHasPfx ['/'] cs
    let segs := cleanSegs rooted [] ((splitSlash cs).filter (· ≠ []))
    if segs = [] then (if rooted then "/" else ".")
    else String.mk ((if rooted then ['/'] else []) ++ joinSegs segs)

/-- `filepath.IsAbs` (Unix): the path starts with the separator. -/
def goIsAbs (s : String) : Bool :=
  strHasPfx "/" s

/-- `filepath.Join(a, b)` (Unix): the non-empty components joined by `/`,
then cleaned; all-empty input yields `""`. -/
def goJoin (a b : String) : String :=
  if a = "" && b = "" then ""
  else if a = "" then goClean b
  else if b = "" then goClean a
  else goClean (String.mk (a.toList ++ '/' :: b.toList))

/-- `os.PathSeparator` as a string (Unix model). -/
def pathSep : String := "/"

/-! ## Plugin discovery: `pkg/discovery` (part_001/part_018) -/

/-- `discovery.DiscoveredPlugin`. -/
structure DiscoveredPlugin where
  name : String
  path : String
deriving DecidableEq, Repr

/-- One directory entry of a scanned search path, with the facts the
scanner reads: its name, whether it is a directory, whether the extra
`os.Stat` call succeeds, and its permission bits. -/
structure DirEntry where
  name : String
  isDir : Bool
  statOk : Bool
  mode : Nat
deriving DecidableEq, Repr

/-- One search path as the scanner sees it: whether `filepath.Abs`
succeeds, the resulting absolute path, whether the path exists, whether
`os.ReadDir` succeeds, and the entries it lists. -/
structure SearchPath where
  absOk : Bool
  absPath : String
  pathExists : Bool
  readDirOk : Bool
  entries : List DirEntry
deriving DecidableEq, Repr

/-- `discovery.PluginPrefix`. -/
def pluginPfx : String := "plugin-"

/-- The per-entry body of `DiscoverPlugins`'s inner loop: skip
directories; on Windows require and strip `.exe`; require the
`plugin-` name prefix; skip entries whose `os.Stat` fails; on non-Windows
require an executable bit; skip the CLI itself (`plugin-cli`); otherwise
yield the discovered plugin. -/
def discoverEntry (isWin : Bool) (absPath : String) (ent : DirEntry) : Option DiscoveredPlugin :=
  if ent.isDir then none
  else if isWin && !strHasSfx ".exe" ent.name then none
  else
    let name := if isWin then trimSfx ent.name ".exe" else ent.name
    if !strHasPfx pluginPfx name then none
    else
      let pluginPath := goJoin absPath ent.name
      if !ent.statOk then none
      else if !isWin && (ent.mode &&& 0o111 = 0) then none
      else
        let pluginName := trimPfx name pluginPfx
        if pluginName = "cli" then none
        else some { name := pluginName, path := pluginPath }

/-- The per-search-path body of `DiscoverPlugins`'s outer loop: a path
whose `filepath.Abs` fails, does not exist, or cannot be read is skipped
(`continue`), contributing no plugins and no error. -/
def discoverInPath (isWin : Bool) (sp : SearchPath) : List DiscoveredPlugin :=
  if !sp.absOk then []
  else if !sp.pathExists then []
  else if !sp.readDirOk then []
  else sp.entries.filterMap (discoverEntry isWin sp.absPath)

/-- `discovery.DiscoverPlugins` (part_001/part_018 lines 20-82): scan each
search path, skipping unusable paths and non-conforming entries; the only
return statement is `return plugins, nil`, so the error result is always
nil. -/
def DiscoverPlugins (isWin : Bool) (paths : List SearchPath) : List DiscoveredPlugin × Option String :=
  ((paths.map (discoverInPath isWin)).flatten, none)

/-- `Pipeline.loadAllPlugins` (part_014 lines 188-211): propagate a
discovery error; otherwise try to load each discovered plugin, dropping
(logging and `continue`) the ones that fail. `load` models
`manager.LoadPluginFromPath`, returning `none` on failure. -/
def loadAllPlugins (isWin : Bool) (paths : List SearchPath)
    (load : DiscoveredPlugin → Option PluginSpec) : Except String (List PluginSpec) :=
  let d := DiscoverPlugins isWin paths
  match d.2 with
  | some err => .error err
  | none => .ok (d.1.filterMap load)

/-- `Pipeline.ProcessEvent` (part_014 lines 112-160) end to end: load all
plugins (returning the wrapped error if that fails), sort them with
`sort.Slice` — represented by the `sortFn` parameter, constrained by
`sortSliceAdmissible` in the theorems — run them in order and tear every
loaded handle down. -/
def ProcessEvent (isWin : Bool) (paths : List SearchPath)
    (load : DiscoveredPlugin → Option PluginSpec)
    (sortFn : List PluginSpec → List PluginSpec) (e : Event) :
    Context × List PEvent × Option String :=
  match loadAllPlugins isWin paths load with
  | .error err => (initialContext e, [], some ("failed to load plugins: " ++ err))
  | .ok loaded =>
    let r := processEventRun (sortFn loaded) e
    (r.1, r.2, none)

/-! ## Archive installer: `extractTarGz` (part_005 lines 232-291) -/

/-- Tar entry type flags the extractor distinguishes (`tar.TypeDir`,
`tar.TypeReg`; everything else falls through the switch untouched). -/
inductive TarTypeflag where
  | dir
  | reg
  | other
deriving DecidableEq, Repr

/-- One parsed entry of the uncompressed tar stream: recorded name, type
flag, payload size in bytes, permission bits. -/
structure TarEntry where
  name : String
  typeflag : TarTypeflag
  size : Nat
  mode : Nat
deriving DecidableEq, Repr

/-- A filesystem node the extractor creates under the destination. -/
inductive FSNode where
  | dir (path : String) (mode : Nat)
  | file (path : String) (size : Nat) (mode : Nat)
deriving DecidableEq, Repr

/-- Path of a created node. -/
def nodePath : FSNode → String
  | .dir p _ => p
  | .file p _ _ => p

/-- The hard per-file cap: `const maxFileSize = 100 * 1024 * 1024`. -/
def maxFileSize : Nat := 100 * 1024 * 1024

/-- Errors `io.CopyN` can report when reading a tar entry payload:
`io.EOF` when the source is exhausted before `n` bytes. -/
inductive CopyErr where
  | eof
deriving DecidableEq, Repr

/-- `io.CopyN(dst, src, cap)` on a source holding `size` bytes: copies
`min size cap` bytes; reports `io.EOF` iff the source ran out first, and
a nil error when exactly `cap` bytes were copied. -/
def copyN (size cap : Nat) : Nat × Option CopyErr :=
  if size < cap then (size, some CopyErr.eof) else (cap, none)

/-- `extractTarGz`'s entry loop (part_005 lines 247-288), on the already
parsed entry list (gzip/tar framing succeeded). An entry whose name
contains `..` or is absolute is skipped; the target is
`filepath.Join(destPath, name)` and is skipped unless
`Clean(destPath) + separator` is a prefix of it. Directory entries create
the directory; regular entries are copied through `io.CopyN` with the
100 MiB cap — only a non-nil, non-EOF copy error aborts — and create a
file holding the copied bytes. The modelled filesystem calls
(`MkdirAll`, `Create`, `Chmod`) succeed; their failure modes depend on
the host, not on the archive. -/
def extractTarGz : List TarEntry → String → Except String (List FSNode)
  | [], _ => .ok []
  | e :: rest, destPath =>
    if strContains e.name ".." || goIsAbs e.name then extractTarGz rest destPath
    else
      let target := goJoin destPath e.name
      if !strHasPfx (goClean destPath ++ pathSep) target then extractTarGz rest destPath
      else
        match e.typeflag with
        | .dir => (extractTarGz rest destPath).map (FSNode.dir target e.mode :: ·)
        | .reg =>
          let r := copyN e.size maxFileSize
          if r.2 ≠ none ∧ r.2 ≠ some CopyErr.eof then .error "copy failed"
          else (extractTarGz rest destPath).map (FSNode.file target r.1 e.mode :: ·)
        | .other => extractTarGz rest destPath

/-! ## Checksum verification: `verifyFileChecksum` (part_005 lines 186-230) -/

/-- Whitespace per `strings.Fields` (ASCII subset — checksum files are
ASCII). -/
def isGoSpace (c : Char) : Bool :=
  c = ' ' || c = '\t' || c = '\n' || c = '\x0b' || c = '\x0c' || c = '\r'

/-- Accumulating loop behind `strings.Fields`. -/
def goFieldsAux (cur : List Char) : List Char → List String
  | [] => if cur = [] then [] else [String.mk cur.reverse]
  | c :: cs =>
    if isGoSpace c then
      if cur = [] then goFieldsAux [] cs else String.mk cur.reverse :: goFieldsAux [] cs
    else goFieldsAux (c :: cur) cs

/-- `strings.Fields(s)`: the maximal runs of non-whitespace characters. -/
def goFields (s : String) : List String :=
  goFieldsAux [] s.toList

/-- `verifyFileChecksum` (part_005 lines 186-230) after the checksum
fetch and the archive read succeeded: parse the fetched body with
`strings.Fields`, error if it has no fields, take the first field as the
expected digest, and error iff it differs from the computed digest.
`actualChecksum` stands for
`hex.EncodeToString(sha256(file contents))` — the hash itself is
`crypto/sha256`, abstracted as an input here; the function under claim is
the parse-and-compare logic. -/
def verifyFileChecksum (actualChecksum : String) (checksumBody : String) : Except String Unit :=
  match goFields checksumBody with
  | [] => .error "invalid checksum format"
  | expected :: _ =>
    if actualChecksum ≠ expected then .error "checksum mismatch"
    else .ok ()

/-! ## gRPC plugin handle metadata: `GRPCClient` (part_012) -/

/-- The metadata response of the plugin's `GetMetadata` call. -/
structure GrpcMetadata where
  name : String
  version : String
  buildTime : String
  minCliVersion : String
  maxCliVersion : String
  description : String
  priority : Int
deriving DecidableEq, Repr

/-- `GRPCClient.Name` (part_012 lines 36-42): empty string when the
underlying `GetMetadata` call fails (`none`). -/
def grpcName : Option GrpcMetadata → String
  | none => ""
  | some m => m.name

/-- `GRPCClient.Version` (part_012 lines 45-51): empty string on
failure. -/
def grpcVersion : Option GrpcMetadata → String
  | none => ""
  | some m => m.version

/-- `GRPCClient.Priority` (part_012 lines 90-96): `100` when the
underlying `GetMetadata` call fails. -/
def grpcPriority : Option GrpcMetadata → Int
  | none => 100
  | some m => m.priority

/-! ## Bulkhead: `download.Bulkhead` (part_016 lines 8-46)

The semaphore channel `make(chan struct{}, maxConcurrent)` with
`Execute`'s send-before / receive-after protocol is embedded as a labelled
transition system: the state is the number of tasks currently inside the
guarded function, `acquire` (the channel send, enabled only below
capacity) enters it and `release` (the deferred receive, enabled only
when someone is inside) leaves it. A trace is admissible iff `semRun`
returns `some`. -/

/-- `NewBulkhead` capacity (part_016 lines 15-23): a non-positive
`maxConcurrent` is coerced to 1. -/
def newBulkheadCap (maxConcurrent : Int) : Nat :=
  if maxConcurrent ≤ 0 then 1 else maxConcurrent.toNat

/-- Semaphore operations: the channel send at `Execute`'s entry and the
deferred receive at its exit. -/
inductive SemOp where
  | acquire
  | release
deriving DecidableEq, Repr

/-- One step of the semaphore channel: a send blocks (is not enabled)
when the buffer is full, a receive blocks when it is empty. -/
def semStep (cap inFlight : Nat) : SemOp → Option Nat
  | .acquire => if inFlight < cap then some (inFlight + 1) else none
  | .release => if 0 < inFlight then some (inFlight - 1) else none

/-- Run a whole operation trace; `none` means some step was not enabled
(the corresponding goroutine would still be blocked there). -/
def semRun (cap inFlight : Nat) : List SemOp → Option Nat
  | [] => some inFlight
  | op :: ops =>
    match semStep cap inFlight op with
    | none => none
    | some st => semRun cap st ops

/-! ## Download queue: `DownloadQueue.Execute` (part_016 lines 174-219) -/

/-- `download.DownloadItem`. -/
structure DownloadItem where
  name : String
  version : String
  url : String
  destPath : String
deriving DecidableEq, Repr

/-- Observable callback invocations of one `Execute` run. -/
inductive QEvent where
  | progress (completed total : Nat) (current : String)
  | errorCb (name : String) (msg : String)
deriving DecidableEq, Repr

/-- The per-item unit of work of `DownloadQueue.Execute` (lines 184-209),
serialized in queue order (one interleaving of the spawned goroutines;
the returned error is the same under every interleaving since neither
return statement depends on the items): report progress if a progress
callback is registered, run `downloadFn` through the bulkhead, increment
`completed`, and fire the error callback if the download failed and a
callback is registered. `dl it = some msg` models a failed download. -/
def queueExecuteLoop (dl : DownloadItem → Option String) (hasProgCb hasErrCb : Bool)
    (total : Nat) : List DownloadItem → Nat → List QEvent × Nat
  | [], completed => ([], completed)
  | it :: rest, completed =>
    let ev1 : List QEvent := if hasProgCb then [QEvent.progress completed total it.name] else []
    let ev2 : List QEvent :=
      match dl it with
      | some msg => if hasErrCb then [QEvent.errorCb it.name msg] else []
      | none => []
    let r := queueExecuteLoop dl hasProgCb hasErrCb total rest (completed + 1)
    (ev1 ++ ev2 ++ r.1, r.2)

/-- `DownloadQueue.Execute` (part_016 lines 174-219): an empty queue
returns nil immediately; otherwise every item's unit of work runs, a
final progress report with an empty current-item name fires, and the
function returns nil — its two return statements are both `return nil`,
so per-item failures surface only through the error callback. -/
def queueExecute (items : List DownloadItem) (dl : DownloadItem → Option String)
    (hasProgCb hasErrCb : Bool) : List QEvent × Option String :=
  if items.length = 0 then ([], none)
  else
    let r := queueExecuteLoop dl hasProgCb hasErrCb items.length items 0
    (r.1 ++ (if hasProgCb then [QEvent.progress r.2 items.length ""] else []), none)

/-! ## Concrete fixtures used by witnesses and counterexamples -/

/-- A concrete event. -/
def wEvent : Event :=
  { type := .message, source := "cli", content := "hello", userID := "u1", channelID := "c1",
    metadata := [] }

/-- A plugin that accepts and returns the context unchanged. -/
def wPlugin : PluginSpec :=
  { pid := 0, priority := 5, shouldExecute := fun _ => (true, ""), process := fun c => some c }

/-- First-discovered of two equal-priority plugins (discovery index 0). -/
def tiePluginA : PluginSpec :=
  { pid := 0, priority := 5, shouldExecute := fun _ => (true, ""), process := fun c => some c }

/-- Second-discovered of two equal-priority plugins (discovery index 1). -/
def tiePluginB : PluginSpec :=
  { pid := 1, priority := 5, shouldExecute := fun _ => (true, ""), process := fun c => some c }

/-- A plugin that accepts but whose `Process` call errors. -/
def failPlugin : PluginSpec :=
  { pid := 2, priority := 7, shouldExecute := fun _ => (true, "go"), process := fun _ => none }

/-- Tie preservation as claimed: among equal-priority handles, the visit
order agrees with the discovery order (`pid` is the discovery index). -/
def tiesPreserveDiscovery (s : List PluginSpec) : Prop :=
  s.Pairwise (fun a b => a.priority = b.priority → a.pid ≤ b.pid)

/-- A regular-file entry whose payload (1 GiB) exceeds the 100 MiB cap. -/
def cexBigEntry : TarEntry :=
  { name := "plugin-big", typeflag := .reg, size := 1073741824, mode := 493 }

/-- A traversal entry. -/
def cexEvilEntry : TarEntry :=
  { name := "../../etc/passwd", typeflag := .reg, size := 10, mode := 420 }

/-- An absolute-path entry. -/
def cexAbsEntry : TarEntry :=
  { name := "/etc/passwd", typeflag := .reg, size := 10, mode := 420 }

/-- A working plugin's metadata with priority 150. -/
def wMeta150 : GrpcMetadata :=
  { name := "worker", version := "1.0.0", buildTime := "", minCliVersion := "",
    maxCliVersion := "", description := "", priority := 150 }

theorem decidePids_runPlugins (ps : List PluginSpec) (c : Context) :
    decidePids (runPlugins ps c).2 = ps.map (·.pid) := by
  induction ps generalizing c with
  | nil => rfl
  | cons p ps ih =>
    by_cases hd : (p.shouldExecute c).1
    · cases hp : p.process c with
      | none => simp [runPlugins, hd, hp, decidePids] at ih ⊢; exact ih c
      | some nc => simp [runPlugins, hd, hp, decidePids] at ih ⊢; exact ih nc
    · simp [runPlugins, hd, decidePids] at ih ⊢; exact ih c

theorem killPids_runPlugins (ps : List PluginSpec) (c : Context) :
    killPids (runPlugins ps c).2 = [] := by
  induction ps generalizing c with
  | nil => rfl
  | cons p ps ih =>
    by_cases hd : (p.shouldExecute c).1
    · cases hp : p.process c with
      | none => simp [runPlugins, hd, hp, killPids] at ih ⊢; exact ih c
      | some nc => simp [runPlugins, hd, hp, killPids] at ih ⊢; exact ih nc
    · simp [runPlugins, hd, killPids] at ih ⊢; exact ih c

theorem killPids_cleanup (ps : List PluginSpec) :
    killPids (cleanupPlugins ps) = ps.map (·.pid) := by
  induction ps with
  | nil => rfl
  | cons p ps ih => simp [cleanupPlugins, killPids] at ih ⊢; exact ih

/-- Every decide/process event in the run trace carries the priority of
one of the handles in the list. -/
theorem evPriority_mem_runPlugins (ps : List PluginSpec) (c : Context) :
    ∀ e ∈ (runPlugins ps c).2, ∃ p ∈ ps, evPriority e = p.priority := by
  induction ps generalizing c with
  | nil => intro e he; simp [runPlugins] at he
  | cons p ps ih =>
    intro e he
    by_cases hd : (p.shouldExecute c).1
    · cases hp : p.process c with
      | none =>
        simp only [runPlugins, hd, hp, if_true] at he
        simp only [List.mem_cons] at he
        rcases he with rfl | rfl | he
        · exact ⟨p, List.mem_cons_self _ _, rfl⟩
        · exact ⟨p, List.mem_cons_self _ _, rfl⟩
        · obtain ⟨q, hq, hqe⟩ := ih c e he
          exact ⟨q, List.mem_cons_of_mem _ hq, hqe⟩
      | some nc =>
        simp only [runPlugins, hd, hp, if_true] at he
        simp only [List.mem_cons] at he
        rcases he with rfl | rfl | he
        · exact ⟨p, List.mem_cons_self _ _, rfl⟩
        · exact ⟨p, List.mem_cons_self _ _, rfl⟩
        · obtain ⟨q, hq, hqe⟩ := ih nc e he
          exact ⟨q, List.mem_cons_of_mem _ hq, hqe⟩
    · simp only [runPlugins, hd, if_false, Bool.false_eq_true, ite_false] at he
      simp only [List.mem_cons] at he
      rcases he with rfl | he
      · exact ⟨p, List.mem_cons_self _ _, rfl⟩
      · obtain ⟨q, hq, hqe⟩ := ih c e he
        exact ⟨q, List.mem_cons_of_mem _ hq, hqe⟩

theorem killPids_append (a b : List PEvent) :
    killPids (a ++ b) = killPids a ++ killPids b := by
  simp [killPids, List.filterMap_append]

theorem killPids_processEventRun (s : List PluginSpec) (e : Event) :
    killPids (processEventRun s e).2 = s.map (·.pid) := by
  show killPids ((runPlugins s (initialContext e)).2 ++ cleanupPlugins s) = _
  rw [killPids_append, killPids_runPlugins, killPids_cleanup, List.nil_append]

theorem pairwise_le_cons_cons (x : Int) (l : List Int)
    (hl : l.Pairwise (· ≤ ·)) (hx : ∀ b ∈ l, x ≤ b) :
    (x :: x :: l).Pairwise (· ≤ ·) := by
  refine List.pairwise_cons.mpr ⟨?_, List.pairwise_cons.mpr ⟨hx, hl⟩⟩
  intro b hb
  rcases List.mem_cons.mp hb with rfl | hb'
  · exact le_refl _
  · exact hx b hb'

theorem runPlugins_trace_sorted : ∀ (s : List PluginSpec),
    s.Pairwise (fun a b => a.priority ≤ b.priority) →
    ∀ c, ((runPlugins s c).2.map evPriority).Pairwise (· ≤ ·) := by
  intro s
  induction s with
  | nil => intro _ c; simp [runPlugins]
  | cons p ps ih =>
    intro hs c
    have hp := (List.pairwise_cons.mp hs).1
    have hps := (List.pairwise_cons.mp hs).2
    have hbound : ∀ c' e, e ∈ (runPlugins ps c').2 → p.priority ≤ evPriority e := by
      intro c' e he
      obtain ⟨q, hq, hqe⟩ := evPriority_mem_runPlugins ps c' e he
      rw [hqe]; exact hp q hq
    have hxmem : ∀ c' b, b ∈ (runPlugins ps c').2.map evPriority → p.priority ≤ b := by
      intro c' b hb
      obtain ⟨e, he, rfl⟩ := List.mem_map.mp hb
      exact hbound c' e he
    by_cases hd : (p.shouldExecute c).1
    · cases hpr : p.process c with
      | none =>
        simp only [runPlugins, hd, hpr, if_true, List.map_cons, evPriority]
        exact pairwise_le_cons_cons _ _ (ih hps c) (hxmem c)
      | some nc =>
        simp only [runPlugins, hd, hpr, if_true, List.map_cons, evPriority]
        exact pairwise_le_cons_cons _ _ (ih hps nc) (hxmem nc)
    · simp only [runPlugins, hd, if_false, Bool.false_eq_true, ite_false, List.map_cons,
        evPriority]
      exact List.pairwise_cons.mpr ⟨hxmem c, ih hps c⟩

/-- C1 (amended): for every discovered set and every sorted order
admissible for `sort.Slice`'s contract, the pipeline's `decide`/`process`
calls happen in non-decreasing priority order, every handle receives its
`decide` call in the sorted order, and the visit order is a permutation
of the discovered set — but equal-priority handles keep no guaranteed
relative order (see the counterexample). -/
theorem processEvent_priority_order (orig s : List PluginSpec) (c : Context)
    (h : sortSliceAdmissible orig s) :
    ((runPlugins s c).2.map evPriority).Pairwise (· ≤ ·) ∧
    decidePids (runPlugins s c).2 = s.map (·.pid) ∧
    (s.map (·.pid)).Perm (orig.map (·.pid)) :=
  ⟨runPlugins_trace_sorted s h.2 c, decidePids_runPlugins s c, h.1.map _⟩

/-- Witness for `processEvent_priority_order` at a concrete one-plugin
run. -/
theorem processEvent_priority_order_witness :
    sortSliceAdmissible [wPlugin] [wPlugin] ∧
    decidePids (runPlugins [wPlugin] (initialContext wEvent)).2 = [wPlugin].map (·.pid) :=
  ⟨⟨List.Perm.refl _, by simp⟩,
   (processEvent_priority_order [wPlugin] [wPlugin] (initialContext wEvent)
     ⟨List.Perm.refl _, by simp⟩).2.1⟩

/-- C1 (counterexample): the sort used by `Pipeline.ProcessEvent` is
`sort.Slice`, whose contract guarantees only a sorted permutation, not
stability. With two equal-priority plugins discovered in order pid 0 then
pid 1, the reversed order satisfies that contract, and the run then calls
`decide` on pid 1 before pid 0 — so the claimed tie-preservation does not
follow from the code. -/
theorem sortSlice_tie_reorder_cex :
    sortSliceAdmissible [tiePluginA, tiePluginB] [tiePluginB, tiePluginA] ∧
    ¬ tiesPreserveDiscovery [tiePluginB, tiePluginA] ∧
    decidePids (runPlugins [tiePluginB, tiePluginA] (initialContext wEvent)).2 = [1, 0] := by
  refine ⟨⟨List.Perm.swap tiePluginA tiePluginB [], ?_⟩, ?_, ?_⟩
  · simp [tiePluginA, tiePluginB]
  · intro hcl
    have h1 := (List.pairwise_cons.mp hcl).1 tiePluginA (by simp)
    have h2 := h1 (by simp [tiePluginA, tiePluginB])
    simp [tiePluginA, tiePluginB] at h2
  · rfl

/-- C5: a plugin whose `Process` call errors leaves the working context
exactly as it was before the call (its returned value is discarded), and
the pipeline continues with the remaining plugins. -/
theorem runPlugins_error_keeps_context (p : PluginSpec) (ps : List PluginSpec) (c : Context)
    (hd : (p.shouldExecute c).1 = true) (hp : p.process c = none) :
    (runPlugins (p :: ps) c).1 = (runPlugins ps c).1 ∧
    (runPlugins (p :: ps) c).2 =
      PEvent.decide p.pid p.priority :: PEvent.process p.pid p.priority ::
        (runPlugins ps c).2 := by
  simp [runPlugins, hd, hp]

/-- Witness for `runPlugins_error_keeps_context`: a concrete failing
plugin followed by a working one. -/
theorem runPlugins_error_keeps_context_witness :
    (failPlugin.shouldExecute (initialContext wEvent)).1 = true ∧
    failPlugin.process (initialContext wEvent) = none ∧
    (runPlugins [failPlugin, wPlugin] (initialContext wEvent)).1 =
      (runPlugins [wPlugin] (initialContext wEvent)).1 :=
  ⟨rfl, rfl, (runPlugins_error_keeps_context failPlugin [wPlugin] (initialContext wEvent)
    rfl rfl).1⟩

/-- C4: in every pipeline run, the trace ends with exactly the `Kill`
calls of the (sorted) loaded handles; each loaded handle is killed
exactly once (given distinct handles), and no kill happens during the
decide/process phase. -/
theorem processEvent_teardown_exactly_once (orig s : List PluginSpec) (e : Event)
    (h : sortSliceAdmissible orig s) (hn : (orig.map (·.pid)).Nodup) :
    killPids (processEventRun s e).2 = s.map (·.pid) ∧
    (∀ p ∈ orig, (killPids (processEventRun s e).2).count p.pid = 1) ∧
    killPids (runPlugins s (initialContext e)).2 = [] := by
  refine ⟨killPids_processEventRun s e, ?_, killPids_runPlugins s _⟩
  intro p hp
  rw [killPids_processEventRun]
  have hperm : (s.map (·.pid)).Perm (orig.map (·.pid)) := h.1.map _
  rw [hperm.count_eq]
  exact List.count_eq_one_of_mem hn (List.mem_map_of_mem _ hp)

/-- Witness for `processEvent_teardown_exactly_once` at a concrete
one-plugin run. -/
theorem processEvent_teardown_exactly_once_witness :
    killPids (processEventRun [wPlugin] wEvent).2 = [0] ∧
    (killPids (processEventRun [wPlugin] wEvent).2).count 0 = 1 :=
  ⟨rfl,
   (processEvent_teardown_exactly_once [wPlugin] [wPlugin] wEvent
     ⟨List.Perm.refl _, by simp⟩ (by simp)).2.1 wPlugin (by simp)⟩

/-- C10: `DiscoverPlugins` always returns a nil error (every unusable
path and non-conforming entry is skipped), so `Pipeline.ProcessEvent`'s
only fatal branch is unreachable and every run returns a nil error. -/
theorem processEvent_never_errors (isWin : Bool) (paths : List SearchPath)
    (load : DiscoveredPlugin → Option PluginSpec)
    (sortFn : List PluginSpec → List PluginSpec) (e : Event) :
    (DiscoverPlugins isWin paths).2 = none ∧
    (ProcessEvent isWin paths load sortFn e).2.2 = none :=
  ⟨rfl, rfl⟩

theorem extractTarGz_reg_step (e : TarEntry) (rest : List TarEntry) (destPath : String)
    (htype : e.typeflag = TarTypeflag.reg)
    (hname : (strContains e.name ".." || goIsAbs e.name) = false)
    (hpfx : strHasPfx (goClean destPath ++ pathSep) (goJoin destPath e.name) = true) :
    extractTarGz (e :: rest) destPath =
      (extractTarGz rest destPath).map
        (FSNode.file (goJoin destPath e.name) (copyN e.size maxFileSize).1 e.mode :: ·) := by
  have hcond : ¬((copyN e.size maxFileSize).2 ≠ none ∧
      (copyN e.size maxFileSize).2 ≠ some CopyErr.eof) := by
    by_cases hlt : e.size < maxFileSize
    · simp [copyN, hlt]
    · simp [copyN, hlt]
  simp [extractTarGz, hname, hpfx, htype, hcond]

/-- C3: entries flagged by the zip-slip checks are skipped outright, and
every node the extractor creates has `Clean(dest) + separator` as a
prefix of its path — nothing is created outside the destination
directory. -/
theorem extractTarGz_path_safety (destPath : String) :
    (∀ (e : TarEntry) (rest : List TarEntry),
      (strContains e.name ".." || goIsAbs e.name) = true ∨
        strHasPfx (goClean destPath ++ pathSep) (goJoin destPath e.name) = false →
      extractTarGz (e :: rest) destPath = extractTarGz rest destPath) ∧
    (∀ (entries : List TarEntry) (result : List FSNode),
      extractTarGz entries destPath = .ok result →
      ∀ n ∈ result, strHasPfx (goClean destPath ++ pathSep) (nodePath n) = true) := by
  constructor
  · intro e rest hflag
    rcases hflag with hname | hpfx
    · simp [extractTarGz, hname]
    · by_cases hname : (strContains e.name ".." || goIsAbs e.name) = true
      · simp [extractTarGz, hname]
      · simp [extractTarGz, hname, hpfx]
  · intro entries
    induction entries with
    | nil =>
      intro result hres n hn
      simp [extractTarGz] at hres
      subst hres
      simp at hn
    | cons e rest ih =>
      intro result hres n hn
      by_cases hname : (strContains e.name ".." || goIsAbs e.name) = true
      · rw [show extractTarGz (e :: rest) destPath = extractTarGz rest destPath by
          simp [extractTarGz, hname]] at hres
        exact ih result hres n hn
      · by_cases hpfx : strHasPfx (goClean destPath ++ pathSep) (goJoin destPath e.name) = true
        · cases htf : e.typeflag with
          | dir =>
            simp only [extractTarGz, hname, hpfx, htf, Bool.false_eq_true, if_false,
              Bool.not_true, if_true] at hres
            cases hrest : extractTarGz rest destPath with
            | error msg => rw [hrest] at hres; simp [Except.map] at hres
            | ok tl =>
              rw [hrest] at hres
              simp only [Except.map, Except.ok.injEq] at hres
              subst hres
              rcases List.mem_cons.mp hn with rfl | hn'
              · exact hpfx
              · exact ih tl hrest n hn'
          | reg =>
            have hname2 : (strContains e.name ".." || goIsAbs e.name) = false := by
              revert hname; cases (strContains e.name ".." || goIsAbs e.name) <;> simp
            rw [extractTarGz_reg_step e rest destPath htf hname2 hpfx] at hres
            cases hrest : extractTarGz rest destPath with
            | error msg => rw [hrest] at hres; simp [Except.map] at hres
            | ok tl =>
              rw [hrest] at hres
              simp only [Except.map, Except.ok.injEq] at hres
              subst hres
              rcases List.mem_cons.mp hn with rfl | hn'
              · exact hpfx
              · exact ih tl hrest n hn'
          | other =>
            simp only [extractTarGz, hname, hpfx, htf, Bool.false_eq_true, if_false,
              Bool.not_true, if_true] at hres
            exact ih result hres n hn
        · rw [show extractTarGz (e :: rest) destPath = extractTarGz rest destPath by
            simp [extractTarGz, hname, hpfx]] at hres
          exact ih result hres n hn

/-- Witness for `extractTarGz_path_safety`: the traversal entry
`../../etc/passwd` is skipped, and the nodes of a concrete successful
extraction all live under the destination. -/
theorem extractTarGz_path_safety_witness :
    extractTarGz [cexEvilEntry, cexAbsEntry] ".plugins" =
      extractTarGz [cexAbsEntry] ".plugins" ∧
    (∀ n ∈ [FSNode.file ".plugins/plugin-big" maxFileSize 493],
      strHasPfx (goClean ".plugins" ++ pathSep) (nodePath n) = true) :=
  ⟨(extractTarGz_path_safety ".plugins").1 cexEvilEntry [cexAbsEntry] (Or.inl (by decide)),
   (extractTarGz_path_safety ".plugins").2 [cexBigEntry]
     [FSNode.file ".plugins/plugin-big" maxFileSize 493] rfl⟩

/-- C2 (counterexample): a 1 GiB regular-file entry under the 100 MiB cap
does not make `extractTarGz` fail — `io.CopyN` returns a nil error after
copying exactly the cap, the guard excuses it, and the extraction
succeeds with a silently truncated 100 MiB file. -/
theorem extractTarGz_oversize_truncates_cex :
    extractTarGz [cexBigEntry] ".plugins" =
      Except.ok [FSNode.file ".plugins/plugin-big" 104857600 493] := by
  rfl

/-- C2 (amended): a regular-file entry whose payload meets or exceeds the
cap and passes the path checks is extracted as a file of exactly
`maxFileSize` bytes, with no error contributed by the size check. -/
theorem extractTarGz_oversize_truncation (e : TarEntry) (rest : List TarEntry)
    (destPath : String) (htype : e.typeflag = TarTypeflag.reg)
    (hbig : maxFileSize ≤ e.size)
    (hname : (strContains e.name ".." || goIsAbs e.name) = false)
    (hpfx : strHasPfx (goClean destPath ++ pathSep) (goJoin destPath e.name) = true) :
    extractTarGz (e :: rest) destPath =
      (extractTarGz rest destPath).map
        (FSNode.file (goJoin destPath e.name) maxFileSize e.mode :: ·) := by
  have hcopy : copyN e.size maxFileSize = (maxFileSize, none) := by
    simp [copyN, Nat.not_lt.mpr hbig]
  simp [extractTarGz, hname, hpfx, htype, hcopy]

/-- Witness for `extractTarGz_oversize_truncation` at the concrete 1 GiB
entry. -/
theorem extractTarGz_oversize_truncation_witness :
    cexBigEntry.typeflag = TarTypeflag.reg ∧
    maxFileSize ≤ cexBigEntry.size ∧
    extractTarGz [cexBigEntry] ".plugins" =
      (extractTarGz [] ".plugins").map
        (FSNode.file (goJoin ".plugins" cexBigEntry.name) maxFileSize cexBigEntry.mode :: ·) :=
  ⟨rfl, by decide,
   extractTarGz_oversize_truncation cexBigEntry [] ".plugins" rfl (by decide) (by decide)
     (by decide)⟩

/-- C8: checksum verification fails exactly when the computed digest
differs from the first whitespace-delimited token of the fetched checksum
body. -/
theorem verifyFileChecksum_correct (actual body expected : String) (rest : List String)
    (hfields : goFields body = expected :: rest) :
    (verifyFileChecksum actual body = .ok () ↔ actual = expected) ∧
    (actual ≠ expected → verifyFileChecksum actual body = .error "checksum mismatch") := by
  refine ⟨⟨?_, ?_⟩, ?_⟩
  · intro h
    by_cases he : actual = expected
    · exact he
    · simp [verifyFileChecksum, hfields, he] at h
  · intro he
    simp [verifyFileChecksum, hfields, he]
  · intro he
    simp [verifyFileChecksum, hfields, he]

/-- Witness for `verifyFileChecksum_correct` on a concrete checksum
body. -/
theorem verifyFileChecksum_correct_witness :
    verifyFileChecksum "abc123" "abc123 plugin.tar.gz" = .ok () ∧
    verifyFileChecksum "deadbeef" "abc123 plugin.tar.gz" = .error "checksum mismatch" :=
  ⟨(verifyFileChecksum_correct "abc123" "abc123 plugin.tar.gz" "abc123" ["plugin.tar.gz"]
      (by decide)).1.mpr rfl,
   (verifyFileChecksum_correct "deadbeef" "abc123 plugin.tar.gz" "abc123" ["plugin.tar.gz"]
      (by decide)).2 (by decide)⟩

/-- C9 (counterexample): on a failed metadata call the priority accessor
returns 100, which is not the numerically highest value of the priority
scale: a working plugin with priority 150 sorts after the broken one
(lower priority runs first), so a broken plugin does not sink below every
working plugin. -/
theorem grpcPriority_not_highest_cex :
    grpcPriority none = 100 ∧ grpcPriority none < grpcPriority (some wMeta150) := by
  decide

/-- C9 (amended): when the underlying metadata call fails, the name and
version accessors return the empty string and the priority accessor
returns the fixed default 100 — which sorts after plugins with priority
below 100 but before any plugin with priority above 100. -/
theorem grpcMetadata_error_defaults :
    grpcName none = "" ∧ grpcVersion none = "" ∧ grpcPriority none = 100 := by
  decide

/-- C6: `DownloadQueue.Execute` returns a nil error for every queue and
every download function; per-item failures surface only as error-callback
events. -/
theorem downloadQueue_execute_returns_nil (items : List DownloadItem)
    (dl : DownloadItem → Option String) (hasProgCb hasErrCb : Bool) :
    (queueExecute items dl hasProgCb hasErrCb).2 = none := by
  by_cases h : items.length = 0 <;> simp [queueExecute, h]

theorem semRun_le_cap : ∀ (ops : List SemOp) (cap st k : Nat),
    st ≤ cap → semRun cap st ops = some k → k ≤ cap := by
  intro ops
  induction ops with
  | nil =>
    intro cap st k h he
    simp [semRun] at he
    omega
  | cons op ops ih =>
    intro cap st k h he
    cases op with
    | acquire =>
      by_cases hlt : st < cap
      · simp only [semRun, semStep, hlt, if_true] at he
        exact ih cap (st + 1) k (by omega) he
      · simp only [semRun, semStep, hlt, if_false] at he
        exact Option.noConfusion he
    | release =>
      by_cases hpos : 0 < st
      · simp only [semRun, semStep, hpos, if_true] at he
        exact ih cap (st - 1) k (by omega) he
      · simp only [semRun, semStep, hpos, if_false] at he
        exact Option.noConfusion he

/-- C7: a bulkhead built with maximum concurrency `n` (coerced to 1 when
`n ≤ 0`) never lets the number of tasks inside `Execute`'s guarded
function exceed the capacity along any admissible trace; at full capacity
the next acquire is not enabled (the submitter blocks), and it becomes
enabled again exactly when a holder releases its slot. -/
theorem bulkhead_concurrency_bound (n : Int) (st : Nat) (ops : List SemOp) (k : Nat)
    (hinv : st ≤ newBulkheadCap n) :
    (n ≤ 0 → newBulkheadCap n = 1) ∧
    (semRun (newBulkheadCap n) st ops = some k → k ≤ newBulkheadCap n) ∧
    semStep (newBulkheadCap n) (newBulkheadCap n) SemOp.acquire = none ∧
    (0 < st → semStep (newBulkheadCap n) st SemOp.release = some (st - 1) ∧
      semStep (newBulkheadCap n) (st - 1) SemOp.acquire = some st) := by
  refine ⟨fun hn => by simp [newBulkheadCap, hn], fun hr => semRun_le_cap ops _ st k hinv hr,
    by simp [semStep], ?_⟩
  intro hpos
  have hsucc : st - 1 + 1 = st := by omega
  have hlt : st - 1 < newBulkheadCap n := by omega
  exact ⟨by simp [semStep, hpos], by simp [semStep, hlt, hsucc]⟩

/-- Witness for `bulkhead_concurrency_bound`: capacity 2, a trace of two
acquires and one release, ending with one task in flight. -/
theorem bulkhead_concurrency_bound_witness :
    semRun (newBulkheadCap 2) 0 [SemOp.acquire, SemOp.acquire, SemOp.release] = some 1 ∧
    (1 : Nat) ≤ newBulkheadCap 2 :=
  ⟨by decide,
   (bulkhead_concurrency_bound 2 0 [SemOp.acquire, SemOp.acquire, SemOp.release] 1
     (by decide)).2.1 (by decide)⟩
